import Mathlib

/-!
Verification of the sync engine of the claude-insights-agent repository.

The Go source is shallowly embedded: strings are Lean `String`/`List Char`,
Go maps are insertion-ordered association lists, `time.Time` values are `Nat`
(with `0` playing the role of the zero time), Go `int` counters are `Int`,
fallible operations return `Option`.  The filesystem, the JSONL decoder and
the HTTP client are modelled at their interfaces: a transcript file is an
optional list of raw lines (`none` = open failure), each raw line carrying
its byte length and the outcome of `json.Unmarshal` on it; the delivery
client is a function from the call index and the batch to an optional list
of per-item responses.
-/

/-! ### String and path helpers (Go standard library, unix rules)

All helpers recurse structurally over `List Char` so that they evaluate by
kernel reduction; Go operates on bytes and the embedding on characters,
which agree on the ASCII data handled here. -/

/-- Go `strings.HasPrefix` on character lists. -/
def startsWithL : List Char → List Char → Bool
  | _, [] => true
  | [], _ :: _ => false
  | c :: s, p :: ps => c = p && startsWithL s ps

/-- Go `strings.HasSuffix` on character lists. -/
def endsWithL (s suffix : List Char) : Bool :=
  startsWithL s.reverse suffix.reverse

/-- Go `strings.Split` for a one-character separator, keeping empty fields. -/
def splitChar (sep : Char) : List Char → List (List Char)
  | [] => [[]]
  | c :: r =>
    if c = sep then [] :: splitChar sep r
    else
      match splitChar sep r with
      | h :: t => (c :: h) :: t
      | [] => [[c]]

/-- Go `strings.Join` with a given separator. -/
def joinWith (sep : List Char) : List (List Char) → List Char
  | [] => []
  | [x] => x
  | x :: y :: t => x ++ sep ++ joinWith sep (y :: t)

/-- ASCII lowercase mapping (the Go `strings.ToLower` restricted to the
ASCII range handled by this repository). -/
def charLower (c : Char) : Char :=
  if 'A' ≤ c && c ≤ 'Z' then Char.ofNat (c.toNat + 32) else c

/-- Go `strings.TrimSuffix`: drop `suffix` when `s` ends with it. -/
def trimSuffix (s suffix : String) : String :=
  if endsWithL s.data suffix.data then
    String.mk (s.data.take (s.data.length - suffix.data.length))
  else s

/-- Go `strings.Contains` on character lists: some suffix starts with `sub`. -/
def containsL : List Char → List Char → Bool
  | [], sub => startsWithL [] sub
  | c :: s, sub => startsWithL (c :: s) sub || containsL s sub

/-- Go `strings.Contains` on strings. -/
def containsStr (s sub : String) : Bool :=
  containsL s.data sub.data

/-- Go `filepath.Base` (unix): strip trailing slashes, keep the part after
the last slash; empty input gives "." and an all-slash input gives "/". -/
def filepathBase (s : String) : String :=
  if s = "" then "."
  else
    let r := s.data.reverse.dropWhile (fun c => c = '/')
    let comp := r.takeWhile (fun c => c ≠ '/')
    if comp = [] then "/" else String.mk comp.reverse

/-- Go `filepath.Clean` (unix), written over path components: collapse
repeated slashes, drop "." components, resolve ".." against prior
components (a leading ".." is kept when relative, dropped when rooted). -/
def pathClean (s : String) : String :=
  if s = "" then "."
  else
    let rooted := startsWithL s.data ['/']
    let comps := (splitChar '/' s.data).filter (fun c => c ≠ [] && c ≠ ['.'])
    let stack := comps.foldl
      (fun st c =>
        if c = ['.', '.'] then
          match st with
          | [] => if rooted then [] else [c]
          | top :: rest => if top = ['.', '.'] then c :: top :: rest else rest
        else c :: st) []
    let parts := stack.reverse
    if rooted then String.mk ('/' :: joinWith ['/'] parts)
    else if parts = [] then "." else String.mk (joinWith ['/'] parts)

/-- Go `filepath.Dir` (unix): everything up to and including the final slash,
then cleaned; a path with no slash gives ".". -/
def filepathDir (s : String) : String :=
  pathClean (String.mk ((s.data.reverse.dropWhile (fun c => c ≠ '/')).reverse))

/-! ### Go filepath.Match

Faithful port of the unix `path/filepath.Match` algorithm over `List Char`.
Errors from malformed patterns are collapsed into a failed match, which is
exactly how every caller in this repository consumes the result (the error
returned alongside the boolean is always discarded).  Fuel arguments bound
recursions whose termination measure in Go is the strictly shrinking
pattern; the fuel supplied at the entry point always suffices. -/

/-- Strip the leading run of stars of a chunk, reporting whether any star
was present (the star flag of Go `scanChunk`). -/
def stripStars : List Char → Bool × List Char
  | [] => (false, [])
  | c :: r => if c = '*' then (true, (stripStars r).2) else (false, c :: r)

/-- Body scan of Go `scanChunk`: cut the pattern at the next top-level star,
treating stars inside a bracket class as literal and skipping the character
after a backslash. -/
def scanBody : List Char → Bool → List Char × List Char
  | [], _ => ([], [])
  | c :: r, inrange =>
    if c = '\\' then
      match r with
      | c2 :: r2 =>
        let p := scanBody r2 inrange
        (c :: c2 :: p.1, p.2)
      | [] => ([c], [])
    else if c = '[' then
      let p := scanBody r true
      (c :: p.1, p.2)
    else if c = ']' then
      let p := scanBody r false
      (c :: p.1, p.2)
    else if c = '*' then
      if inrange then
        let p := scanBody r inrange
        (c :: p.1, p.2)
      else ([], c :: r)
    else
      let p := scanBody r inrange
      (c :: p.1, p.2)

/-- Go `scanChunk`: split the pattern into a star flag, the next chunk and
the remaining pattern. -/
def scanChunk (pattern : List Char) : Bool × List Char × List Char :=
  let s := stripStars pattern
  let p := scanBody s.2 false
  (s.1, p.1, p.2)

/-- Go `getEsc`: read one (possibly escaped) class character; `none` stands
for the ErrBadPattern cases. -/
def getEsc (chunk : List Char) : Option (Char × List Char) :=
  match chunk with
  | [] => none
  | c :: rest =>
    if c = '-' || c = ']' then none
    else if c = '\\' then
      match rest with
      | [] => none
      | c2 :: rest2 => if rest2 = [] then none else some (c2, rest2)
    else if rest = [] then none else some (c, rest)

/-- Range list of a bracket class in Go `matchChunk`: consume lo[-hi] pairs
until the closing bracket, reporting whether `r` fell in any range together
with the rest of the chunk; `none` stands for a malformed class.  The fuel
is decremented once per range; each range consumes at least one character,
so fuel = chunk length suffices. -/
def matchRanges (fuel : Nat) (chunk : List Char) (r : Char) (nrange : Nat) :
    Option (Bool × List Char) :=
  match fuel with
  | 0 => none
  | fuel + 1 =>
    match chunk with
    | ']' :: rest =>
      if nrange > 0 then some (false, rest)
      else none
    | _ =>
      match getEsc chunk with
      | none => none
      | some (lo, rest) =>
        match rest with
        | '-' :: rest2 =>
          match getEsc rest2 with
          | none => none
          | some (hi, rest3) =>
            match matchRanges fuel rest3 r (nrange + 1) with
            | none => none
            | some (m, c) => some (m || (lo ≤ r && r ≤ hi), c)
        | _ =>
          match matchRanges fuel rest r (nrange + 1) with
          | none => none
          | some (m, c) => some (m || (lo ≤ r && r ≤ lo), c)

/-- Go `matchChunk` with the failed and error outcomes both collapsed to
`none` (callers only see the boolean result of `Match`, and for a fixed
chunk an error occurs independently of the matched text, so the collapse
preserves that boolean).  Returns the rest of the name on success.  Every
recursive call strictly shrinks the chunk (`matchRanges` never grows its
rest), so fuel = chunk length suffices. -/
def matchChunkF (fuel : Nat) (chunk s : List Char) : Option (List Char) :=
  match fuel with
  | 0 => none
  | fuel + 1 =>
    match chunk with
    | [] => some s
    | '[' :: ch =>
      match s with
      | [] => none
      | c :: srest =>
        let neg := startsWithL ch ['^']
        let ch2 := if neg then ch.drop 1 else ch
        match matchRanges ch2.length ch2 c 0 with
        | none => none
        | some (m, rest) =>
          if m = neg then none else matchChunkF fuel rest srest
    | '?' :: ch =>
      match s with
      | [] => none
      | c :: srest => if c = '/' then none else matchChunkF fuel ch srest
    | '\\' :: ch =>
      match ch with
      | [] => none
      | c2 :: ch2 =>
        match s with
        | [] => none
        | c :: srest => if c2 = c then matchChunkF fuel ch2 srest else none
    | c0 :: ch =>
      match s with
      | [] => none
      | c :: srest => if c0 = c then matchChunkF fuel ch srest else none

/-- Entry point for one chunk: supply sufficient fuel. -/
def matchChunk (chunk s : List Char) : Option (List Char) :=
  matchChunkF (chunk.length + 1) chunk s

/-- Star-skip loop of Go `Match`: try to match the chunk at every later
offset of the name, never skipping past a slash; on a match that leaves
text after a final chunk, keep scanning.  The continuation `k` is the
outer loop of `Match` on the remaining pattern. -/
def tryStar (k : List Char → List Char → Bool) (chunk pattern : List Char) :
    List Char → Bool
  | [] => false
  | c :: nrest =>
    if c = '/' then false
    else
      match matchChunk chunk nrest with
      | some t =>
        if pattern = [] && t ≠ [] then tryStar k chunk pattern nrest
        else k pattern t
      | none => tryStar k chunk pattern nrest

/-- Main loop of Go `Match`.  Each iteration consumes at least one pattern
character via `scanChunk` (the star-with-empty-chunk case returns
immediately), so fuel = pattern length + 1 suffices. -/
def goMatch (fuel : Nat) (pattern name : List Char) : Bool :=
  match fuel with
  | 0 => false
  | fuel + 1 =>
    if pattern = [] then name = []
    else
      let sc := scanChunk pattern
      let star := sc.1
      let chunk := sc.2.1
      let rest := sc.2.2
      if star && chunk = [] then ! name.contains '/'
      else
        match matchChunk chunk name with
        | some t =>
          if t = [] || rest ≠ [] then goMatch fuel rest t
          else if star then tryStar (goMatch fuel) chunk rest name
          else false
        | none =>
          if star then tryStar (goMatch fuel) chunk rest name
          else false

/-- Go `filepath.Match` on strings, error discarded as by every caller. -/
def filepathMatch (pattern name : String) : Bool :=
  goMatch (pattern.length + 1) pattern.data name.data

/-! ### Data model (internal/parser)

Times are `Nat`, with `0` standing for the zero `time.Time`; `EndedAt` is a
nilable pointer, hence `Option Nat`.  Go `int` counters are `Int`.  The Go
map of tool statistics is an insertion-ordered association list. -/

/-- Per-tool aggregate counters (Go `parser.ToolStats`). -/
structure ToolStats where
  count : Int
  success : Int
  errors : Int
  deriving Repr, DecidableEq

/-- One conversational turn (Go `parser.Message`). -/
structure Message where
  seq : Int
  timestamp : Nat
  role : String
  content : String
  deriving Repr, DecidableEq

/-- A parsed session (Go `parser.Session`). -/
structure Session where
  id : String
  projectName : String
  projectPath : String
  startedAt : Nat
  endedAt : Option Nat
  totalMessages : Int
  totalTokensIn : Int
  totalTokensOut : Int
  model : String
  tools : List (String × ToolStats)
  tags : List String
  messages : List Message
  deriving Repr, DecidableEq

/-! ### Redactor (internal/filter) -/

/-- Sharing policy (Go `config.SharingConfig`). -/
structure SharingConfig where
  level : String
  excludeProjects : List String
  anonymizePaths : Bool
  deriving Repr, DecidableEq

/-- Go `strings.ReplaceAll` for the fixed arguments "**" to "*": rewrite
non-overlapping double stars left to right. -/
def replaceDoubleStar : List Char → List Char
  | '*' :: '*' :: r => '*' :: replaceDoubleStar r
  | c :: r => c :: replaceDoubleStar r
  | [] => []

/-- Go `Filter.isExcluded`: the path matches one of the exclusion patterns,
or, for a pattern containing a double star, the pattern with double stars
collapsed to single stars matches one slash-separated path segment. -/
def isExcluded (patterns : List String) (projectPath : String) : Bool :=
  patterns.any (fun pattern =>
    filepathMatch pattern projectPath ||
    (containsStr pattern "**" &&
      (splitChar '/' projectPath.data).any (fun part =>
        filepathMatch (String.mk (replaceDoubleStar pattern.data))
          (String.mk part))))

/-- Go `Filter.Apply`: suppress an excluded session, otherwise copy the
scalar and aggregate fields, set the project name from the anonymization
flag, and keep the message list only under the full sharing level.  The
unset fields of the fresh Go struct literal are its zero values: an empty
project path and a nil message list. -/
def Filter.Apply (cfg : SharingConfig) (s : Session) : Option Session :=
  if isExcluded cfg.excludeProjects s.projectPath then none
  else
    let filtered : Session := {
      id := s.id
      startedAt := s.startedAt
      endedAt := s.endedAt
      totalMessages := s.totalMessages
      totalTokensIn := s.totalTokensIn
      totalTokensOut := s.totalTokensOut
      model := s.model
      tools := s.tools
      tags := s.tags
      projectPath := ""
      projectName :=
        if cfg.anonymizePaths then filepathBase s.projectPath
        else s.projectPath
      messages := [] }
    if cfg.level = "none" then none
    else if cfg.level = "metadata" then some { filtered with messages := [] }
    else if cfg.level = "full" then some { filtered with messages := s.messages }
    else some filtered

/-! ### Extractor (internal/parser, ParseJSONL)

A transcript file is `Option (List RawLine)`: `none` is an open failure.
Each raw line records its byte length (the scanner enforces a 10 MiB token
limit) and the outcome of `json.Unmarshal` on it. -/

/-- One content block of a decoded message payload (Go `parser.ContentBlock`,
the serialized input is irrelevant to the parse and omitted). -/
structure ContentBlock where
  btype : String
  text : String
  name : String
  deriving Repr, DecidableEq

/-- Token usage of a decoded message payload (Go `parser.Usage`). -/
structure Usage where
  inputTokens : Int
  outputTokens : Int
  deriving Repr, DecidableEq

/-- Decoded nested message payload (Go `parser.MessageContent`). -/
structure MessageContent where
  content : List ContentBlock
  usage : Option Usage
  model : String
  deriving Repr, DecidableEq

/-- One decoded JSONL entry (Go `parser.RawEntry`).  The timestamp field
mirrors the raw string at its use sites: `none` is the empty string,
`some none` a non-empty string that does not parse as RFC3339, and
`some (some t)` one that parses to time `t`.  The message field is the
value left in the target struct by the nested unmarshal: `none` when the
raw message is nil (the unmarshal is skipped, leaving the zero value). -/
structure RawEntry where
  etype : String
  timestamp : Option (Option Nat)
  message : Option MessageContent
  deriving Repr, DecidableEq

/-- Outcome of `json.Unmarshal` on one scanned line. -/
inductive LineParse where
  | malformed
  | entry (e : RawEntry)
  deriving Repr, DecidableEq

/-- One line handed to the loop, with its length in bytes. -/
structure RawLine where
  len : Nat
  parse : LineParse
  deriving Repr, DecidableEq

/-- Maximum token size given to the scanner: `scanner.Buffer(buf, 10*1024*1024)`. -/
def maxTokenSize : Nat := 10 * 1024 * 1024

/-- The bufio scanner: lines are delivered in order until one exceeds the
token limit, at which point scanning stops and `scanner.Err()` is non-nil.
Returns the delivered lines and the error flag. -/
def scanAll : List RawLine → List RawLine × Bool
  | [] => ([], false)
  | l :: ls =>
    if l.len > maxTokenSize then ([], true)
    else
      let r := scanAll ls
      (l :: r.1, r.2)

/-- Mutable loop state of `ParseJSONL` (the fields of the session under
construction plus the local variables of the loop). -/
structure ParseAcc where
  totalMessages : Int
  totalTokensIn : Int
  totalTokensOut : Int
  model : String
  tools : List (String × ToolStats)
  messages : List Message
  firstTs : Nat
  lastTs : Nat
  msgSeq : Int
  deriving Repr, DecidableEq

/-- Initial loop state: Go zero values and the empty tool map. -/
def initialAcc : ParseAcc :=
  { totalMessages := 0, totalTokensIn := 0, totalTokensOut := 0, model := ""
    tools := [], messages := [], firstTs := 0, lastTs := 0, msgSeq := 0 }

/-- Map update for one tool invocation: create the entry on first use, then
bump the invocation and (optimistic) success counters. -/
def bumpTool : List (String × ToolStats) → String → List (String × ToolStats)
  | [], name => [(name, { count := 1, success := 1, errors := 0 })]
  | (n, st) :: rest, name =>
    if n = name then
      (n, { st with count := st.count + 1, success := st.success + 1 }) :: rest
    else (n, st) :: bumpTool rest name

/-- Content-block walk of the loop body: gather text parts and bump tool
counters for named tool uses. -/
def procBlocks (blocks : List ContentBlock)
    (tools : List (String × ToolStats)) :
    List String × List (String × ToolStats) :=
  match blocks with
  | [] => ([], tools)
  | b :: bs =>
    if b.btype = "text" then
      let r := procBlocks bs tools
      (b.text :: r.1, r.2)
    else if b.btype = "tool_use" then
      if b.name ≠ "" then procBlocks bs (bumpTool tools b.name)
      else procBlocks bs tools
    else procBlocks bs tools

/-- Loop body of `ParseJSONL` for one scanned line: skip empty and
malformed lines, track first and last parseable timestamps, and for a
conversational turn bump the message count, walk the content blocks,
accumulate token usage, track the model, and append the message. -/
def procLine (acc : ParseAcc) (l : RawLine) : ParseAcc :=
  if l.len = 0 then acc
  else
    match l.parse with
    | .malformed => acc
    | .entry e =>
      let acc :=
        match e.timestamp with
        | some (some ts) =>
          { acc with
            firstTs := if acc.firstTs = 0 then ts else acc.firstTs
            lastTs := ts }
        | _ => acc
      if e.etype = "user" || e.etype = "assistant" then
        let mc := e.message.getD { content := [], usage := none, model := "" }
        let pb := procBlocks mc.content acc.tools
        let textParts := pb.1
        let tools := pb.2
        let acc :=
          match mc.usage with
          | some u =>
            { acc with
              totalTokensIn := acc.totalTokensIn + u.inputTokens
              totalTokensOut := acc.totalTokensOut + u.outputTokens }
          | none => acc
        let model := if mc.model ≠ "" then mc.model else acc.model
        let msgTs :=
          match e.timestamp with
          | some (some t) => t
          | _ => 0
        { acc with
          totalMessages := acc.totalMessages + 1
          tools := tools
          model := model
          messages := acc.messages ++
            [{ seq := acc.msgSeq, timestamp := msgTs, role := e.etype
               content := String.mk (joinWith ['\n'] (textParts.map String.data)) }]
          msgSeq := acc.msgSeq + 1 }
      else { acc with totalMessages := acc.totalMessages }

/-- Keyword table of `generateTags` in source order (the Go map iteration
order is unspecified; the embedding fixes the textual order, which no
claim depends on). -/
def tagPatterns : List (String × List String) :=
  [("debugging", ["error", "bug", "fix", "debug"]),
   ("refactoring", ["refactor", "cleanup", "restructure"]),
   ("feature", ["implement", "add feature", "new feature"]),
   ("testing", ["test", "spec", "coverage"]),
   ("documentation", ["document", "readme", "comment"])]

/-- Go `generateTags`: one tag per tool used, then keyword tags from the
lowercased concatenation of the first five turn texts. -/
def generateTags (s : Session) : List String :=
  let toolTags := s.tools.map (fun t => "tool:" ++ t.1)
  let content := (s.messages.take 5).foldl
    (fun acc m => acc ++ String.mk (m.content.data.map charLower) ++ " ") ""
  toolTags ++ tagPatterns.filterMap
    (fun p => if p.2.any (fun kw => containsStr content kw) then some p.1
              else none)

/-- Session identity derived from the file name, shared by the parser and
the watcher: base name with the .jsonl suffix trimmed. -/
def sessionIDOf (path : String) : String :=
  filepathBase (trimSuffix path ".jsonl")

/-- Project path and name derivation of `ParseJSONL`: a parent directory
name starting with a dash encodes a path with slashes replaced by dashes;
reverse the substitution and take the final component as the name.
Otherwise both stay at their zero values. -/
def projectOf (path : String) : String × String :=
  let parentDir := filepathBase (filepathDir path)
  if startsWithL parentDir.data ['-'] then
    let pp := parentDir.data.map (fun c => if c = '-' then '/' else c)
    let parts := splitChar '/' pp
    (String.mk pp, String.mk ((parts.getLast?).getD []))
  else ("", "")

/-- Go `ParseJSONL`: `none` is an open failure; otherwise the scanned lines
are folded into a session and the scanner error flag is returned alongside
(`true` stands for a non-nil error from `scanner.Err()`). -/
def ParseJSONL (path : String) (file : Option (List RawLine)) :
    Option (Session × Bool) :=
  match file with
  | none => none
  | some rawLines =>
    let scanned := scanAll rawLines
    let acc := scanned.1.foldl procLine initialAcc
    let proj := projectOf path
    let sess : Session := {
      id := sessionIDOf path
      projectPath := proj.1
      projectName := proj.2
      startedAt := acc.firstTs
      endedAt := if acc.lastTs ≠ 0 then some acc.lastTs else none
      totalMessages := acc.totalMessages
      totalTokensIn := acc.totalTokensIn
      totalTokensOut := acc.totalTokensOut
      model := acc.model
      tools := acc.tools
      tags := []
      messages := acc.messages }
    some ({ sess with tags := generateTags sess }, scanned.2)

/-! ### Sync Engine (internal/watcher)

SyncState maps are insertion-ordered association lists with map-assignment
update.  One sync pass is a pure function of the discovered files, a parse
oracle standing for `parser.ParseJSONL` (`none` = parse error), and a
delivery oracle standing for `client.UploadBatch` indexed by the global
call number within the pass (`none` = failed attempt).  Besides the final
session map, the pass returns the list of delivery calls made (each the
batch submitted) and the list of backoff sleeps performed, in order. -/

/-- Association-list lookup (Go map read with ok flag). -/
def lookupA : List (String × Nat) → String → Option Nat
  | [], _ => none
  | kv :: rest, key => if kv.1 = key then some kv.2 else lookupA rest key

/-- Association-list update (Go map assignment: replace or append). -/
def insertA : List (String × Nat) → String → Nat → List (String × Nat)
  | [], key, v => [(key, v)]
  | kv :: rest, key, v =>
    if kv.1 = key then (key, v) :: rest else kv :: insertA rest key v

/-- Per-item acknowledgment of the server (Go `client.SessionResponse`). -/
structure Response where
  status : String
  sessionID : String
  warnings : List String
  deriving Repr, DecidableEq

/-- Pass environment: configuration and the two oracles. -/
structure SyncEnv where
  cfg : SharingConfig
  retryAttempts : Nat
  parse : String → Option Session
  upload : Nat → List Session → Option (List Response)
  now : Nat

/-- Candidate computation of `Watcher.sync`: files whose derived session ID
is absent from the synced-sessions map.  Note that neither file content nor
modification time is consulted. -/
def candidateFiles (synced : List (String × Nat)) (files : List String) :
    List String :=
  files.filter (fun f => (lookupA synced (sessionIDOf f)).isNone)

/-- Parse-and-filter loop of `Watcher.sync`: a parse failure skips the file
without marking it; a suppressed (nil) filter result marks the session as
synced without queueing it; a surviving filtered copy is queued for upload. -/
def processFiles (env : SyncEnv) :
    List (String × Nat) → List String → List (String × Nat) × List Session
  | st, [] => (st, [])
  | st, f :: fs =>
    match env.parse f with
    | none => processFiles env st fs
    | some session =>
      match Filter.Apply env.cfg session with
      | none => processFiles env (insertA st session.id env.now) fs
      | some filtered =>
        let r := processFiles env st fs
        (r.1, filtered :: r.2)

/-- Batch partition of `Watcher.sync`: consecutive slices of ten, the last
slice holding the remainder. -/
def chunksTen : List Session → List (List Session)
  | [] => []
  | a :: l => ((a :: l).take 10) :: chunksTen ((a :: l).drop 10)
  termination_by l => l.length
  decreasing_by simp; omega

/-- Success bookkeeping of `Watcher.sync`: for each returned response, mark
the session at the same position of the batch as synced (the server returns
one response per submitted item, in order). -/
def markBatch (st : List (String × Nat)) (now : Nat) (batch : List Session)
    (responses : List Response) : List (String × Nat) :=
  (batch.zip responses).foldl (fun acc p => insertA acc p.1.id now) st

/-- Result of the delivery phase for one or more batches. -/
structure BatchRun where
  state : List (String × Nat)
  calls : List (List Session)
  sleeps : List Nat
  nextCall : Nat
  deriving Repr

/-- Retry loop of `Watcher.sync` for one batch: up to the configured number
of attempts, stopping at the first success, which marks the whole batch;
every failed attempt is followed by a sleep of attempt times two seconds.
The first argument counts the remaining attempts, the second the current
attempt number (starting at one). -/
def attemptBatch (env : SyncEnv) (batch : List Session) :
    Nat → Nat → Nat → List (String × Nat) → BatchRun
  | 0, _, ci, st => ⟨st, [], [], ci⟩
  | rem + 1, attempt, ci, st =>
    match env.upload ci batch with
    | some responses =>
      ⟨markBatch st env.now batch responses, [batch], [], ci + 1⟩
    | none =>
      let r := attemptBatch env batch rem (attempt + 1) (ci + 1) st
      ⟨r.state, batch :: r.calls, attempt * 2 :: r.sleeps, r.nextCall⟩

/-- Delivery loop of `Watcher.sync` over all batches: a batch whose
attempts are exhausted is only logged; the pass moves to the next batch. -/
def uploadBatches (env : SyncEnv) :
    List (List Session) → Nat → List (String × Nat) → BatchRun
  | [], ci, st => ⟨st, [], [], ci⟩
  | b :: bs, ci, st =>
    let r1 := attemptBatch env b env.retryAttempts 1 ci st
    let r2 := uploadBatches env bs r1.nextCall r1.state
    ⟨r2.state, r1.calls ++ r2.calls, r1.sleeps ++ r2.sleeps, r2.nextCall⟩

/-- Observable outcome of the session half of one sync pass. -/
structure SyncOutcome where
  sessions : List (String × Nat)
  calls : List (List Session)
  sleeps : List Nat
  deriving Repr

/-- Session half of `Watcher.sync`: candidates, parse and filter, then
batched delivery with retries. -/
def syncSessions (env : SyncEnv) (synced : List (String × Nat))
    (files : List String) : SyncOutcome :=
  let pr := processFiles env synced (candidateFiles synced files)
  let r := uploadBatches env (chunksTen pr.2) 0 pr.1
  ⟨r.state, r.calls, r.sleeps⟩

/-- Backoff sleeps of a fully failing batch, starting at a given attempt
number: attempt times two seconds after every failed attempt. -/
def failSleeps : Nat → Nat → List Nat
  | 0, _ => []
  | rem + 1, attempt => attempt * 2 :: failSleeps rem (attempt + 1)

/-! ### Plan candidates (Watcher.syncPlans) -/

/-- One discovered plan file with its stat outcome: presence of a
modification time stands for a successful `os.Stat`. -/
structure PlanFile where
  path : String
  statOk : Bool
  mtime : Nat
  deriving Repr, DecidableEq

/-- Plan identity: base name with the .md suffix trimmed. -/
def planNameOf (path : String) : String :=
  filepathBase (trimSuffix path ".md")

/-- Candidate computation of `Watcher.syncPlans`: a stat failure skips the
file; otherwise the plan is a candidate when unseen or when its
modification time is strictly after the recorded delivery time. -/
def planCandidates (syncedPlans : List (String × Nat))
    (files : List PlanFile) : List PlanFile :=
  files.filter (fun f =>
    f.statOk &&
      match lookupA syncedPlans (planNameOf f.path) with
      | none => true
      | some lastSynced => decide (lastSynced < f.mtime))

/-! ### Discovery (Watcher.findSessions)

The walked tree: a directory carries `none` for its entries when ReadDir
fails on it.  The walk callback of `findSessions` returns nil on every
error it is handed — including the error for the root itself — so
`filepath.WalkDir` can only ever return nil and the error result of
`findSessions` is always nil.  A root that cannot be statted is the `none`
root below: the callback receives the stat error, swallows it, and the
walk ends with no files and no error. -/

/-- One node of the walked filesystem. -/
inductive FSNode where
  | file (path : String)
  | dir (path : String) (entries : Option (List FSNode))

mutual

/-- Files collected by the walk under one node: `.jsonl` files, in walk
order; an unreadable directory contributes nothing (its ReadDir error is
reported to the callback, which swallows it). -/
def collectJSONL : FSNode → List String
  | .file p => if endsWithL p.data ".jsonl".data then [p] else []
  | .dir _ none => []
  | .dir _ (some entries) => collectJSONLList entries

/-- Walk of a directory entry list, in order. -/
def collectJSONLList : List FSNode → List String
  | [] => []
  | e :: es => collectJSONL e ++ collectJSONLList es

end

/-- Go `Watcher.findSessions`: the collected files and the error returned
by `filepath.WalkDir`.  Because the callback swallows every error, the
error component is always `none`. -/
def findSessions (root : Option FSNode) : List String × Option String :=
  match root with
  | none => ([], none)
  | some t => (collectJSONL t, none)

/-! ### Derived notions used by the statements -/

/-- A scanned line that the loop counts as a conversational turn: non-empty,
valid JSON, with type tag "user" or "assistant". -/
def isTurnLine (l : RawLine) : Bool :=
  l.len ≠ 0 &&
    match l.parse with
    | .entry e => e.etype = "user" || e.etype = "assistant"
    | .malformed => false

/-- Expected batch sizes for a list of a given length cut into slices of
ten (fuel-indexed so that it evaluates by kernel reduction). -/
def chunkLensF : Nat → Nat → List Nat
  | _, 0 => []
  | 0, _ + 1 => []
  | fuel + 1, m + 1 => min 10 (m + 1) :: chunkLensF fuel (m + 1 - 10)

/-! ### Concrete sample inputs for the witnesses -/

/-- A minimal session with a given ID and project path. -/
def sampleSession (i pp : String) : Session :=
  { id := i, projectName := "", projectPath := pp, startedAt := 0
    endedAt := none, totalMessages := 2, totalTokensIn := 3
    totalTokensOut := 4, model := "m", tools := [("Bash", ⟨1, 1, 0⟩)]
    tags := ["tool:Bash"]
    messages := [{ seq := 0, timestamp := 1, role := "user", content := "hi" },
                 { seq := 1, timestamp := 2, role := "assistant", content := "ok" }] }

/-- Raw line whose length exceeds the 10 MiB scanner buffer while being a
well-formed user entry. -/
def overLine : RawLine :=
  { len := maxTokenSize + 1, parse := .entry ⟨"user", none, none⟩ }

/-- Two small lines: one valid user turn, one malformed. -/
def sampleLines : List RawLine :=
  [{ len := 20, parse := .entry ⟨"user", some (some 7), none⟩ },
   { len := 9, parse := .malformed }]

/-- Three small lines: user turn, malformed, summary entry. -/
def sampleLines2 : List RawLine :=
  [{ len := 20, parse := .entry ⟨"user", some (some 7), none⟩ },
   { len := 9, parse := .malformed },
   { len := 12, parse := .entry ⟨"summary", none, none⟩ }]

/-- Environment whose delivery client always fails and whose parse oracle
yields a fixed non-excluded session per file. -/
def sampleEnvFail : SyncEnv :=
  { cfg := { level := "metadata", excludeProjects := ["/secret/proj"]
             anonymizePaths := true }
    retryAttempts := 3
    parse := fun f => if f = "s.jsonl" then some (sampleSession "s" "/secret/proj")
                      else some (sampleSession (sessionIDOf f) "/open/proj")
    upload := fun _ _ => none
    now := 99 }

/-- Environment whose delivery client always succeeds with one response per
submitted item. -/
def sampleEnvOk : SyncEnv :=
  { sampleEnvFail with
    upload := fun _ b => some (b.map fun s => { status := "ok", sessionID := s.id, warnings := [] }) }

/-- Twenty-three candidate file names. -/
def sampleFiles23 : List String :=
  (List.range 23).map (fun i => "f" ++ toString i ++ ".jsonl")

/-! ### Theorems -/

/-- C1.  A session whose ID is present in the synced-sessions map of
SyncState at the start of a pass is excluded from the candidate set of
that pass.  The candidate computation consults only the derived session ID
and the map — never file content or modification time — so a session
acknowledged (hence present in the map) after pass N is not a candidate in
pass N+1, whatever happened to its file. -/
theorem synced_session_never_candidate (synced : List (String × Nat))
    (files : List String) (f : String)
    (h : (lookupA synced (sessionIDOf f)).isSome = true) :
    f ∉ candidateFiles synced files := by
  intro hmem
  rw [candidateFiles, List.mem_filter] at hmem
  rw [Option.isNone_iff_eq_none] at hmem
  rw [hmem.2] at h
  simp at h

/-- C1 witness: the file of an already-recorded session is not a candidate. -/
theorem synced_session_never_candidate_inst :
    ((lookupA [("abc", 5)] (sessionIDOf "/logs/projects/p/abc.jsonl")).isSome = true) ∧
    "/logs/projects/p/abc.jsonl" ∉
      candidateFiles [("abc", 5)] ["/logs/projects/p/abc.jsonl"] :=
  ⟨by decide, synced_session_never_candidate [("abc", 5)]
    ["/logs/projects/p/abc.jsonl"] "/logs/projects/p/abc.jsonl" (by decide)⟩

/-- C6.  A plan file whose stat succeeds is a delivery candidate exactly
when its derived name is absent from the synced-plans map or its
modification time is strictly after the recorded delivery time; an
unchanged or earlier modification time never makes it a candidate. -/
theorem plan_candidate_iff (syncedPlans : List (String × Nat))
    (files : List PlanFile) (f : PlanFile) (h : f.statOk = true) :
    f ∈ planCandidates syncedPlans files ↔
      f ∈ files ∧
        (lookupA syncedPlans (planNameOf f.path) = none ∨
          ∃ t, lookupA syncedPlans (planNameOf f.path) = some t ∧ t < f.mtime) := by
  rw [planCandidates, List.mem_filter]
  constructor
  · rintro ⟨hmem, hcond⟩
    refine ⟨hmem, ?_⟩
    rw [h] at hcond
    simp only [Bool.true_and] at hcond
    cases hl : lookupA syncedPlans (planNameOf f.path) with
    | none => exact Or.inl rfl
    | some t =>
      rw [hl] at hcond
      simp only [decide_eq_true_eq] at hcond
      exact Or.inr ⟨t, rfl, hcond⟩
  · rintro ⟨hmem, hcond⟩
    refine ⟨hmem, ?_⟩
    rw [h]
    simp only [Bool.true_and]
    rcases hcond with hnone | ⟨t, hsome, hlt⟩
    · rw [hnone]
    · rw [hsome]
      simpa using hlt

/-- C6 witness: an updated plan is a candidate again. -/
theorem plan_candidate_iff_inst :
    ((⟨"/plans/p1.md", true, 6⟩ : PlanFile).statOk = true) ∧
    ((⟨"/plans/p1.md", true, 6⟩ : PlanFile) ∈
        planCandidates [("p1", 5)] [⟨"/plans/p1.md", true, 6⟩] ↔
      (⟨"/plans/p1.md", true, 6⟩ : PlanFile) ∈ [(⟨"/plans/p1.md", true, 6⟩ : PlanFile)] ∧
        (lookupA [("p1", 5)] (planNameOf "/plans/p1.md") = none ∨
          ∃ t, lookupA [("p1", 5)] (planNameOf "/plans/p1.md") = some t ∧ t < 6)) :=
  ⟨rfl, plan_candidate_iff [("p1", 5)] [⟨"/plans/p1.md", true, 6⟩]
    ⟨"/plans/p1.md", true, 6⟩ rfl⟩

/-- C8.  The walk callback of findSessions swallows every enumeration
error, including one for the root directory itself, so findSessions always
returns a nil error: a failing root yields an empty file list and no
surfaced error, and the enumeration error check in sync is dead code — the
pass does not abort.  (Errors on sub-paths are indeed swallowed without
aborting discovery: an unreadable subdirectory leaves sibling files
intact.) -/
theorem findSessions_swallows_root_error :
    findSessions none = ([], none) ∧
    (∀ root, (findSessions root).2 = none) ∧
    findSessions (some (.dir "/logs/projects" none)) = ([], none) ∧
    findSessions (some (.dir "/logs/projects"
        (some [.dir "/logs/projects/locked" none,
               .file "/logs/projects/p/x.jsonl"]))) =
      (["/logs/projects/p/x.jsonl"], none) := by
  refine ⟨rfl, ?_, rfl, by decide⟩
  intro root
  cases root <;> rfl

/-- C3.  For a non-excluded session, the redactor under level "none"
suppresses the session; under "metadata" it returns a copy agreeing with
the input on every scalar and aggregate field with an empty message list;
under "full" the copy additionally carries the message list verbatim.  The
transform is a pure function of the input, which it never mutates. -/
theorem filter_apply_share_levels (cfg : SharingConfig) (s : Session)
    (h : isExcluded cfg.excludeProjects s.projectPath = false) :
    (cfg.level = "none" → Filter.Apply cfg s = none) ∧
    (cfg.level = "metadata" → ∃ t, Filter.Apply cfg s = some t ∧
      t.id = s.id ∧ t.startedAt = s.startedAt ∧ t.endedAt = s.endedAt ∧
      t.totalMessages = s.totalMessages ∧ t.totalTokensIn = s.totalTokensIn ∧
      t.totalTokensOut = s.totalTokensOut ∧ t.model = s.model ∧
      t.tools = s.tools ∧ t.tags = s.tags ∧ t.messages = []) ∧
    (cfg.level = "full" → ∃ t, Filter.Apply cfg s = some t ∧
      t.id = s.id ∧ t.startedAt = s.startedAt ∧ t.endedAt = s.endedAt ∧
      t.totalMessages = s.totalMessages ∧ t.totalTokensIn = s.totalTokensIn ∧
      t.totalTokensOut = s.totalTokensOut ∧ t.model = s.model ∧
      t.tools = s.tools ∧ t.tags = s.tags ∧ t.messages = s.messages) := by
  refine ⟨fun hl => ?_, fun hl => ?_, fun hl => ?_⟩ <;>
    simp only [Filter.Apply, h, Bool.false_eq_true, if_false, hl] <;> simp

/-- C3 witness: the three levels at a concrete two-turn session. -/
theorem filter_apply_share_levels_inst :
    (isExcluded [] (sampleSession "s" "/open/proj").projectPath = false) ∧
    ((("metadata" : String) = "none" →
        Filter.Apply ⟨"metadata", [], true⟩ (sampleSession "s" "/open/proj") = none) ∧
      (("metadata" : String) = "metadata" →
        ∃ t, Filter.Apply ⟨"metadata", [], true⟩ (sampleSession "s" "/open/proj") = some t ∧
          t.id = (sampleSession "s" "/open/proj").id ∧
          t.startedAt = (sampleSession "s" "/open/proj").startedAt ∧
          t.endedAt = (sampleSession "s" "/open/proj").endedAt ∧
          t.totalMessages = (sampleSession "s" "/open/proj").totalMessages ∧
          t.totalTokensIn = (sampleSession "s" "/open/proj").totalTokensIn ∧
          t.totalTokensOut = (sampleSession "s" "/open/proj").totalTokensOut ∧
          t.model = (sampleSession "s" "/open/proj").model ∧
          t.tools = (sampleSession "s" "/open/proj").tools ∧
          t.tags = (sampleSession "s" "/open/proj").tags ∧
          t.messages = []) ∧
      (("metadata" : String) = "full" →
        ∃ t, Filter.Apply ⟨"metadata", [], true⟩ (sampleSession "s" "/open/proj") = some t ∧
          t.id = (sampleSession "s" "/open/proj").id ∧
          t.startedAt = (sampleSession "s" "/open/proj").startedAt ∧
          t.endedAt = (sampleSession "s" "/open/proj").endedAt ∧
          t.totalMessages = (sampleSession "s" "/open/proj").totalMessages ∧
          t.totalTokensIn = (sampleSession "s" "/open/proj").totalTokensIn ∧
          t.totalTokensOut = (sampleSession "s" "/open/proj").totalTokensOut ∧
          t.model = (sampleSession "s" "/open/proj").model ∧
          t.tools = (sampleSession "s" "/open/proj").tools ∧
          t.tags = (sampleSession "s" "/open/proj").tags ∧
          t.messages = (sampleSession "s" "/open/proj").messages)) :=
  ⟨by decide, filter_apply_share_levels ⟨"metadata", [], true⟩
    (sampleSession "s" "/open/proj") (by decide)⟩

/-- C10.  For a non-excluded session, a sharing-level string other than
"none", "metadata" and "full" falls through the switch without touching
the message list of the fresh copy, whose zero value is nil: the result is
the same non-null, empty-message copy that "metadata" produces; nothing is
suppressed and no error is signalled. -/
theorem filter_apply_unknown_level (cfg : SharingConfig) (s : Session)
    (hex : isExcluded cfg.excludeProjects s.projectPath = false)
    (h0 : cfg.level ≠ "none") (h1 : cfg.level ≠ "metadata")
    (h2 : cfg.level ≠ "full") :
    Filter.Apply cfg s = Filter.Apply { cfg with level := "metadata" } s ∧
    ∃ t, Filter.Apply cfg s = some t ∧ t.messages = [] := by
  simp only [Filter.Apply, hex, Bool.false_eq_true, if_false, h0, h1, h2]
  simp

/-- C10 witness: the level "partial" behaves as "metadata". -/
theorem filter_apply_unknown_level_inst :
    (isExcluded [] (sampleSession "s" "/open/proj").projectPath = false) ∧
    (("partial" : String) ≠ "none") ∧ (("partial" : String) ≠ "metadata") ∧
    (("partial" : String) ≠ "full") ∧
    (Filter.Apply ⟨"partial", [], true⟩ (sampleSession "s" "/open/proj") =
        Filter.Apply ⟨"metadata", [], true⟩ (sampleSession "s" "/open/proj") ∧
      ∃ t, Filter.Apply ⟨"partial", [], true⟩ (sampleSession "s" "/open/proj") = some t ∧
        t.messages = []) :=
  ⟨by decide, by decide, by decide, by decide,
    filter_apply_unknown_level ⟨"partial", [], true⟩ (sampleSession "s" "/open/proj")
      (by decide) (by decide) (by decide) (by decide)⟩

/-- The scanner delivers every line unchanged, with a nil error, when no
line exceeds the token limit. -/
theorem scanAll_all_fit (lines : List RawLine)
    (h : ∀ l ∈ lines, l.len ≤ maxTokenSize) : scanAll lines = (lines, false) := by
  induction lines with
  | nil => rfl
  | cons l ls ih =>
    have hl : l.len ≤ maxTokenSize := h l (List.mem_cons_self l ls)
    have hls : ∀ x ∈ ls, x.len ≤ maxTokenSize :=
      fun x hx => h x (List.mem_cons_of_mem l hx)
    rw [scanAll]
    rw [if_neg (by omega)]
    rw [ih hls]

/-- The loop body bumps the message count exactly on conversational-turn
lines: non-empty, valid JSON, type tag user or assistant. -/
theorem procLine_totalMessages (acc : ParseAcc) (l : RawLine) :
    (procLine acc l).totalMessages =
      acc.totalMessages + (if isTurnLine l then 1 else 0) := by
  rw [procLine, isTurnLine]
  by_cases h0 : l.len = 0
  · simp [h0]
  · rw [if_neg h0]
    cases hp : l.parse with
    | malformed => simp [h0]
    | entry e =>
      rcases hts : e.timestamp with _ | (_ | ts) <;>
        rcases hu : (e.message.getD { content := [], usage := none, model := "" }).usage
          with _ | u <;>
        by_cases ht : (e.etype = "user" || e.etype = "assistant") = true <;>
        simp [h0, ht, hts, hu]

/-- Folding the loop body adds one to the message count per turn line. -/
theorem foldl_procLine_count (lines : List RawLine) :
    ∀ acc : ParseAcc, (lines.foldl procLine acc).totalMessages =
      acc.totalMessages + ((lines.filter isTurnLine).length : Int) := by
  induction lines with
  | nil => intro acc; simp
  | cons l ls ih =>
    intro acc
    rw [List.foldl_cons, ih (procLine acc l), procLine_totalMessages]
    by_cases ht : isTurnLine l = true
    · rw [List.filter_cons_of_pos ht]
      simp only [ht, if_true, List.length_cons]
      push_cast
      ring
    · rw [List.filter_cons_of_neg (by simpa using ht)]
      simp only [ht, if_false]
      push_cast
      ring

/-- C5 (amended).  For a file that opens successfully and whose lines all
fit the 10 MiB scanner buffer, the parse completes and the total message
count of the session equals the number of non-empty valid-JSON lines whose
type tag is user or assistant; malformed lines contribute nothing and do
not abort the parse. -/
theorem parse_count_valid_turns (path : String) (lines : List RawLine)
    (h : ∀ l ∈ lines, l.len ≤ maxTokenSize) :
    ∃ s e, ParseJSONL path (some lines) = some (s, e) ∧
      s.totalMessages = ((lines.filter isTurnLine).length : Int) := by
  rw [ParseJSONL]
  rw [scanAll_all_fit lines h]
  refine ⟨_, _, rfl, ?_⟩
  show (List.foldl procLine initialAcc lines).totalMessages = _
  rw [foldl_procLine_count lines initialAcc]
  simp [initialAcc]

/-- C5 witness: one valid user line among a malformed and a
non-conversational line yields a count of one. -/
theorem parse_count_valid_turns_inst :
    (∀ l ∈ sampleLines2, l.len ≤ maxTokenSize) ∧
    (∃ s e, ParseJSONL "a.jsonl" (some sampleLines2) = some (s, e) ∧
      s.totalMessages = ((sampleLines2.filter isTurnLine).length : Int)) :=
  ⟨by decide, parse_count_valid_turns "a.jsonl" sampleLines2 (by decide)⟩

/-- C5 counterexample.  A single line that is valid JSON of type user but
longer than the 10 MiB scanner buffer is a valid conversational-turn line,
yet the parse aborts before processing it: the session counts zero
messages while the file holds one valid turn line — the claim as stated
fails for files with over-long lines. -/
theorem parse_count_overlong_cex :
    (ParseJSONL "a.jsonl" (some [overLine])).map (fun p => p.1.totalMessages) =
        some 0 ∧
    ([overLine].filter isTurnLine).length = 1 := ⟨rfl, rfl⟩

/-- C9 (amended).  ParseJSONL reports an error on open failure; for a file
that opens successfully, it returns a session with a nil error whenever
every line fits the 10 MiB scanner buffer, whatever the contents. -/
theorem parse_err_nil_when_lines_fit (path : String) (lines : List RawLine)
    (h : ∀ l ∈ lines, l.len ≤ maxTokenSize) :
    ParseJSONL path none = none ∧
    ∃ s, ParseJSONL path (some lines) = some (s, false) := by
  refine ⟨rfl, ?_⟩
  rw [ParseJSONL, scanAll_all_fit lines h]
  exact ⟨_, rfl⟩

/-- C9 witness: a small file with a malformed line parses with nil error. -/
theorem parse_err_nil_when_lines_fit_inst :
    (∀ l ∈ sampleLines, l.len ≤ maxTokenSize) ∧
    (ParseJSONL "b.jsonl" none = none ∧
      ∃ s, ParseJSONL "b.jsonl" (some sampleLines) = some (s, false)) :=
  ⟨by decide, parse_err_nil_when_lines_fit "b.jsonl" sampleLines (by decide)⟩

/-- C9 counterexample.  A file that opens successfully but contains a line
longer than the 10 MiB scanner buffer makes the scanner error non-nil, so
ParseJSONL returns a non-nil error for a successfully opened file — the
claim as stated fails. -/
theorem parse_err_overlong_cex :
    (ParseJSONL "a.jsonl" (some [overLine])).map Prod.snd = some true := rfl

/-- With an always-failing client, the retry loop for one batch makes one
delivery call per remaining attempt, sleeps attempt times two seconds
after each failure, and leaves the state untouched. -/
theorem attemptBatch_always_fail (env : SyncEnv) (batch : List Session)
    (hfail : ∀ i b, env.upload i b = none) :
    ∀ rem attempt ci st, attemptBatch env batch rem attempt ci st =
      ⟨st, List.replicate rem batch, failSleeps rem attempt, ci + rem⟩ := by
  intro rem
  induction rem with
  | zero => intro attempt ci st; rfl
  | succ n ih =>
    intro attempt ci st
    rw [attemptBatch, hfail, ih (attempt + 1) (ci + 1) st]
    simp [List.replicate_succ, failSleeps]
    omega

/-- With an always-failing client, the delivery phase makes exactly the
configured number of attempts per batch, batch after batch, and marks
nothing. -/
theorem uploadBatches_always_fail (env : SyncEnv)
    (hfail : ∀ i b, env.upload i b = none) :
    ∀ bs ci st, uploadBatches env bs ci st =
      ⟨st, bs.flatMap (fun b => List.replicate env.retryAttempts b),
        bs.flatMap (fun _ => failSleeps env.retryAttempts 1),
        ci + env.retryAttempts * bs.length⟩ := by
  intro bs
  induction bs with
  | nil => intro ci st; simp [uploadBatches]
  | cons b rest ih =>
    intro ci st
    rw [uploadBatches, attemptBatch_always_fail env b hfail, ih]
    simp [List.flatMap_cons]
    rw [Nat.mul_succ]
    omega

/-- C4.  With a delivery client that always fails, every batch of the pass
receives exactly retryAttempts delivery calls — consecutively, so a failed
batch is never retried later in the same pass — each failed attempt is
followed by a backoff sleep of attempt number times two seconds, and no
session of any batch is marked delivered: the session map after the
delivery phase is exactly the map before it. -/
theorem retry_exhaustion (env : SyncEnv) (synced : List (String × Nat))
    (files : List String) (hfail : ∀ i b, env.upload i b = none) :
    (syncSessions env synced files).sessions =
      (processFiles env synced (candidateFiles synced files)).1 ∧
    (syncSessions env synced files).calls =
      (chunksTen (processFiles env synced (candidateFiles synced files)).2).flatMap
        (fun b => List.replicate env.retryAttempts b) ∧
    (syncSessions env synced files).sleeps =
      (chunksTen (processFiles env synced (candidateFiles synced files)).2).flatMap
        (fun _ => failSleeps env.retryAttempts 1) := by
  rw [syncSessions]
  rw [uploadBatches_always_fail env hfail]
  exact ⟨rfl, rfl, rfl⟩

/-- C4 witness: one candidate session, three attempts, sleeps 2, 4 and 6
seconds, nothing marked. -/
theorem retry_exhaustion_inst :
    (∀ i b, sampleEnvFail.upload i b = none) ∧
    ((syncSessions sampleEnvFail [] ["a.jsonl"]).sessions =
        (processFiles sampleEnvFail [] (candidateFiles [] ["a.jsonl"])).1 ∧
      (syncSessions sampleEnvFail [] ["a.jsonl"]).calls =
        (chunksTen (processFiles sampleEnvFail [] (candidateFiles [] ["a.jsonl"])).2).flatMap
          (fun b => List.replicate sampleEnvFail.retryAttempts b) ∧
      (syncSessions sampleEnvFail [] ["a.jsonl"]).sleeps =
        (chunksTen (processFiles sampleEnvFail [] (candidateFiles [] ["a.jsonl"])).2).flatMap
          (fun _ => failSleeps sampleEnvFail.retryAttempts 1)) :=
  ⟨fun _ _ => rfl, retry_exhaustion sampleEnvFail [] ["a.jsonl"] (fun _ _ => rfl)⟩

/-- Joining the batch partition gives back the upload queue: the batches
are consecutive slices. -/
theorem chunksTen_flatten (l : List Session) : (chunksTen l).flatten = l := by
  match l with
  | [] => rw [chunksTen]; rfl
  | a :: t =>
    rw [chunksTen, List.flatten_cons, chunksTen_flatten ((a :: t).drop 10),
      List.take_append_drop]
  termination_by l.length
  decreasing_by simp; omega

/-- The batch partition produces the rounded-up number of batches. -/
theorem chunksTen_length (l : List Session) :
    (chunksTen l).length = (l.length + 9) / 10 := by
  match l with
  | [] => rw [chunksTen]; rfl
  | a :: t =>
    rw [chunksTen, List.length_cons, chunksTen_length ((a :: t).drop 10)]
    simp only [List.length_drop, List.length_cons]
    omega
  termination_by l.length
  decreasing_by simp; omega

/-- Sizes of the batch slices, computed from the queue length alone. -/
theorem chunksTen_map_length (l : List Session) :
    ∀ fuel, l.length ≤ fuel →
      (chunksTen l).map List.length = chunkLensF fuel l.length := by
  match l with
  | [] =>
    intro fuel _
    cases fuel <;> rw [chunksTen] <;> rfl
  | a :: t =>
    intro fuel hf
    match fuel with
    | 0 => simp at hf
    | f + 1 =>
      rw [chunksTen, List.map_cons,
        chunksTen_map_length ((a :: t).drop 10) f
          (by simp only [List.length_drop, List.length_cons] at hf ⊢; omega)]
      simp only [List.length_drop, List.length_cons, List.length_take]
      rw [chunkLensF]
  termination_by l.length
  decreasing_by simp; omega

/-- With a client that succeeds on the first attempt, the retry loop makes
exactly one call and no sleeps. -/
theorem attemptBatch_first_success (env : SyncEnv) (batch : List Session)
    (rem attempt ci : Nat) (st : List (String × Nat)) (rs : List Response)
    (hok : env.upload ci batch = some rs) :
    attemptBatch env batch (rem + 1) attempt ci st =
      ⟨markBatch st env.now batch rs, [batch], [], ci + 1⟩ := by
  rw [attemptBatch, hok]

/-- With an always-succeeding client and at least one configured attempt,
the delivery phase performs exactly one call per batch, in order, with no
sleeps. -/
theorem uploadBatches_always_ok (env : SyncEnv)
    (hok : ∀ i b, (env.upload i b).isSome = true)
    (hr : 1 ≤ env.retryAttempts) :
    ∀ bs ci st, (uploadBatches env bs ci st).calls = bs ∧
      (uploadBatches env bs ci st).sleeps = [] := by
  intro bs
  induction bs with
  | nil => intro ci st; exact ⟨rfl, rfl⟩
  | cons b rest ih =>
    intro ci st
    obtain ⟨r, hr2⟩ : ∃ r, env.retryAttempts = r + 1 :=
      ⟨env.retryAttempts - 1, by omega⟩
    obtain ⟨rs, hrs⟩ : ∃ rs, env.upload ci b = some rs :=
      Option.isSome_iff_exists.mp (hok ci b)
    rw [uploadBatches, hr2, attemptBatch_first_success env b r 1 ci st rs hrs]
    exact ⟨by simp [(ih (ci + 1) (markBatch st env.now b rs)).1],
      by simp [(ih (ci + 1) (markBatch st env.now b rs)).2]⟩

/-- C7.  With a working delivery client and at least one configured
attempt, the delivery calls of a pass are exactly the consecutive
ten-element slices of the upload queue (the last slice holding the
remainder), so the number of calls is the queue length divided by ten
rounded up; in particular a queue of twenty-three sessions produces three
calls of sizes ten, ten and three. -/
theorem batch_partition_calls (env : SyncEnv) (synced : List (String × Nat))
    (files : List String)
    (hok : ∀ i b, (env.upload i b).isSome = true)
    (hr : 1 ≤ env.retryAttempts) :
    (syncSessions env synced files).calls =
      chunksTen (processFiles env synced (candidateFiles synced files)).2 ∧
    ((syncSessions env synced files).calls).flatten =
      (processFiles env synced (candidateFiles synced files)).2 ∧
    ((syncSessions env synced files).calls).length =
      ((processFiles env synced (candidateFiles synced files)).2.length + 9) / 10 ∧
    ((processFiles env synced (candidateFiles synced files)).2.length = 23 →
      ((syncSessions env synced files).calls).map List.length = [10, 10, 3]) := by
  have hcalls : (syncSessions env synced files).calls =
      chunksTen (processFiles env synced (candidateFiles synced files)).2 := by
    rw [syncSessions]
    exact (uploadBatches_always_ok env hok hr _ 0 _).1
  refine ⟨hcalls, ?_, ?_, ?_⟩
  · rw [hcalls, chunksTen_flatten]
  · rw [hcalls, chunksTen_length]
  · intro h23
    rw [hcalls, chunksTen_map_length _ 23 (le_of_eq h23), h23]
    rfl

/-- C7 witness: twenty-three candidate files with an always-succeeding
client give exactly three calls of sizes ten, ten and three. -/
theorem batch_partition_calls_inst :
    (∀ i b, (sampleEnvOk.upload i b).isSome = true) ∧ 1 ≤ sampleEnvOk.retryAttempts ∧
    ((syncSessions sampleEnvOk [] sampleFiles23).calls =
        chunksTen (processFiles sampleEnvOk [] (candidateFiles [] sampleFiles23)).2 ∧
      ((syncSessions sampleEnvOk [] sampleFiles23).calls).flatten =
        (processFiles sampleEnvOk [] (candidateFiles [] sampleFiles23)).2 ∧
      ((syncSessions sampleEnvOk [] sampleFiles23).calls).length =
        ((processFiles sampleEnvOk [] (candidateFiles [] sampleFiles23)).2.length + 9) / 10 ∧
      ((processFiles sampleEnvOk [] (candidateFiles [] sampleFiles23)).2.length = 23 →
        ((syncSessions sampleEnvOk [] sampleFiles23).calls).map List.length = [10, 10, 3])) :=
  ⟨fun _ _ => rfl, by decide,
    batch_partition_calls sampleEnvOk [] sampleFiles23 (fun _ _ => rfl) (by decide)⟩

/-- Map assignment makes the assigned key present. -/
theorem lookupA_insertA_self (st : List (String × Nat)) (k : String) (v : Nat) :
    lookupA (insertA st k v) k = some v := by
  induction st with
  | nil => simp [insertA, lookupA]
  | cons kv rest ih =>
    rw [insertA]
    by_cases h : kv.1 = k
    · rw [if_pos h, lookupA, if_pos rfl]
    · rw [if_neg h, lookupA, if_neg h, ih]

/-- Map assignment never removes a present key. -/
theorem lookupA_insertA_isSome (st : List (String × Nat)) (k k2 : String)
    (v : Nat) (h : (lookupA st k2).isSome = true) :
    (lookupA (insertA st k v) k2).isSome = true := by
  induction st with
  | nil => simp [lookupA] at h
  | cons kv rest ih =>
    rw [insertA]
    by_cases hk : kv.1 = k
    · rw [if_pos hk, lookupA]
      rw [lookupA] at h
      by_cases h2 : k = k2
      · rw [if_pos h2]; rfl
      · rw [if_neg h2]
        rw [hk] at h
        rw [if_neg h2] at h
        exact h
    · rw [if_neg hk, lookupA]
      rw [lookupA] at h
      by_cases h2 : kv.1 = k2
      · rw [if_pos h2]; rfl
      · rw [if_neg h2] at h ⊢
        exact ih h

/-- The parse-and-filter loop never removes a present key. -/
theorem processFiles_isSome (env : SyncEnv) (k : String) :
    ∀ fs st, (lookupA st k).isSome = true →
      (lookupA (processFiles env st fs).1 k).isSome = true := by
  intro fs
  induction fs with
  | nil => intro st h; exact h
  | cons f rest ih =>
    intro st h
    rw [processFiles]
    cases hp : env.parse f with
    | none => exact ih st h
    | some session =>
      dsimp only
      cases ha : Filter.Apply env.cfg session with
      | none =>
        exact ih (insertA st session.id env.now)
          (lookupA_insertA_isSome st session.id k env.now h)
      | some filtered => exact ih st h

/-- Every candidate whose parse succeeds and whose filter result is nil is
marked in the state produced by the parse-and-filter loop. -/
theorem processFiles_marks_excluded (env : SyncEnv) (f : String) (s : Session) :
    ∀ fs st, f ∈ fs → env.parse f = some s → Filter.Apply env.cfg s = none →
      (lookupA (processFiles env st fs).1 s.id).isSome = true := by
  intro fs
  induction fs with
  | nil => intro st h; simp at h
  | cons g rest ih =>
    intro st hmem hp ha
    rw [processFiles]
    rcases List.mem_cons.mp hmem with heq | htail
    · subst heq
      rw [hp]
      dsimp only
      rw [ha]
      exact processFiles_isSome env s.id rest (insertA st s.id env.now)
        (by rw [lookupA_insertA_self]; rfl)
    · cases hpg : env.parse g with
      | none => exact ih st htail hp ha
      | some sg =>
        dsimp only
        cases hag : Filter.Apply env.cfg sg with
        | none => exact ih (insertA st sg.id env.now) htail hp ha
        | some filtered => exact ih st htail hp ha

/-- Success bookkeeping never removes a present key. -/
theorem markBatch_isSome (now : Nat) (k : String) (l : List (Session × Response)) :
    ∀ st, (lookupA st k).isSome = true →
      (lookupA (l.foldl (fun acc p => insertA acc p.1.id now) st) k).isSome = true := by
  induction l with
  | nil => intro st h; exact h
  | cons p rest ih =>
    intro st h
    exact ih (insertA st p.1.id now) (lookupA_insertA_isSome st p.1.id k now h)

/-- The retry loop never removes a present key. -/
theorem attemptBatch_isSome (env : SyncEnv) (batch : List Session) (k : String) :
    ∀ rem attempt ci st, (lookupA st k).isSome = true →
      (lookupA (attemptBatch env batch rem attempt ci st).state k).isSome = true := by
  intro rem
  induction rem with
  | zero => intro attempt ci st h; exact h
  | succ n ih =>
    intro attempt ci st h
    rw [attemptBatch]
    cases hu : env.upload ci batch with
    | none => exact ih (attempt + 1) (ci + 1) st h
    | some responses => exact markBatch_isSome env.now k (batch.zip responses) st h

/-- The delivery phase never removes a present key. -/
theorem uploadBatches_isSome (env : SyncEnv) (k : String) :
    ∀ bs ci st, (lookupA st k).isSome = true →
      (lookupA (uploadBatches env bs ci st).state k).isSome = true := by
  intro bs
  induction bs with
  | nil => intro ci st h; exact h
  | cons b rest ih =>
    intro ci st h
    rw [uploadBatches]
    exact ih _ _ (attemptBatch_isSome env b k env.retryAttempts 1 ci st h)

/-- Everything the parse-and-filter loop queues for upload is the filtered
copy of a successfully parsed candidate. -/
theorem processFiles_provenance (env : SyncEnv) :
    ∀ fs st u, u ∈ (processFiles env st fs).2 →
      ∃ g, g ∈ fs ∧ ∃ orig, env.parse g = some orig ∧
        Filter.Apply env.cfg orig = some u := by
  intro fs
  induction fs with
  | nil => intro st u h; simp [processFiles] at h
  | cons g rest ih =>
    intro st u hmem
    rw [processFiles] at hmem
    cases hp : env.parse g with
    | none =>
      rw [hp] at hmem
      obtain ⟨g2, hg2, horig⟩ := ih st u hmem
      exact ⟨g2, List.mem_cons_of_mem g hg2, horig⟩
    | some session =>
      rw [hp] at hmem
      dsimp only at hmem
      cases ha : Filter.Apply env.cfg session with
      | none =>
        rw [ha] at hmem
        obtain ⟨g2, hg2, horig⟩ := ih (insertA st session.id env.now) u hmem
        exact ⟨g2, List.mem_cons_of_mem g hg2, horig⟩
      | some filtered =>
        rw [ha] at hmem
        rcases List.mem_cons.mp hmem with heq | htail
        · exact ⟨g, List.mem_cons_self g rest, session, hp, by rw [ha, heq]⟩
        · obtain ⟨g2, hg2, horig⟩ := ih st u htail
          exact ⟨g2, List.mem_cons_of_mem g hg2, horig⟩

/-- Every call of the retry loop submits exactly its batch. -/
theorem attemptBatch_calls_eq (env : SyncEnv) (batch : List Session) :
    ∀ rem attempt ci st c,
      c ∈ (attemptBatch env batch rem attempt ci st).calls → c = batch := by
  intro rem
  induction rem with
  | zero => intro attempt ci st c h; simp [attemptBatch] at h
  | succ n ih =>
    intro attempt ci st c h
    rw [attemptBatch] at h
    cases hu : env.upload ci batch with
    | none =>
      rw [hu] at h
      rcases List.mem_cons.mp h with heq | htail
      · exact heq
      · exact ih (attempt + 1) (ci + 1) st c htail
    | some responses =>
      rw [hu] at h
      simpa using h

/-- Every call of the delivery phase submits one of its batches. -/
theorem uploadBatches_calls_mem (env : SyncEnv) :
    ∀ bs ci st c, c ∈ (uploadBatches env bs ci st).calls → c ∈ bs := by
  intro bs
  induction bs with
  | nil => intro ci st c h; simp [uploadBatches] at h
  | cons b rest ih =>
    intro ci st c h
    rw [uploadBatches] at h
    rcases List.mem_append.mp h with hl | hr
    · exact List.mem_cons.mpr (Or.inl
        (attemptBatch_calls_eq env b env.retryAttempts 1 ci st c hl))
    · exact List.mem_cons_of_mem b (ih _ _ c hr)

/-- Members of a batch slice are members of the queue. -/
theorem chunksTen_mem_subset (l : List Session) :
    ∀ b, b ∈ chunksTen l → ∀ x ∈ b, x ∈ l := by
  match l with
  | [] => intro b hb; rw [chunksTen] at hb; simp at hb
  | a :: t =>
    intro b hb x hx
    rw [chunksTen] at hb
    rcases List.mem_cons.mp hb with heq | htail
    · exact List.take_subset 10 (a :: t) (heq ▸ hx)
    · exact List.drop_subset 10 (a :: t)
        (chunksTen_mem_subset ((a :: t).drop 10) b htail x hx)
  termination_by l.length
  decreasing_by simp; omega

/-- A session surviving the filter is not excluded. -/
theorem apply_some_not_excluded (cfg : SharingConfig) (s t : Session)
    (h : Filter.Apply cfg s = some t) :
    isExcluded cfg.excludeProjects s.projectPath = false := by
  by_cases hx : isExcluded cfg.excludeProjects s.projectPath = true
  · rw [Filter.Apply, if_pos hx] at h
    exact absurd h (by simp)
  · simpa using hx

/-- C2.  A candidate session whose project path matches an exclusion
pattern is suppressed by the redactor (nil), its ID is nonetheless present
in the session map of SyncState after the pass, and no delivery call of
the pass carries anything but filtered copies of non-excluded sessions. -/
theorem excluded_suppressed_but_recorded (env : SyncEnv)
    (synced : List (String × Nat)) (files : List String) (f : String)
    (s : Session)
    (hf : f ∈ candidateFiles synced files)
    (hp : env.parse f = some s)
    (hex : isExcluded env.cfg.excludeProjects s.projectPath = true) :
    Filter.Apply env.cfg s = none ∧
    (lookupA (syncSessions env synced files).sessions s.id).isSome = true ∧
    ∀ b ∈ (syncSessions env synced files).calls, ∀ u ∈ b,
      ∃ g, g ∈ candidateFiles synced files ∧ ∃ orig, env.parse g = some orig ∧
        isExcluded env.cfg.excludeProjects orig.projectPath = false ∧
        Filter.Apply env.cfg orig = some u := by
  have hnil : Filter.Apply env.cfg s = none := by
    rw [Filter.Apply, if_pos hex]
  refine ⟨hnil, ?_, ?_⟩
  · rw [syncSessions]
    exact uploadBatches_isSome env s.id _ 0 _
      (processFiles_marks_excluded env f s (candidateFiles synced files)
        synced hf hp hnil)
  · intro b hb u hu
    rw [syncSessions] at hb
    have hbchunk := uploadBatches_calls_mem env _ 0 _ b hb
    have huq := chunksTen_mem_subset _ b hbchunk u hu
    obtain ⟨g, hg, orig, hporig, haorig⟩ :=
      processFiles_provenance env (candidateFiles synced files) synced u huq
    exact ⟨g, hg, orig, hporig,
      apply_some_not_excluded env.cfg orig u haorig, haorig⟩

/-- C2 witness: a session under an excluded project is suppressed yet
recorded, and the only delivery call of the pass carries only the filtered
copy of the open-project session. -/
theorem excluded_suppressed_but_recorded_inst :
    ("s.jsonl" ∈ candidateFiles [] ["s.jsonl", "a.jsonl"]) ∧
    (sampleEnvFail.parse "s.jsonl" = some (sampleSession "s" "/secret/proj")) ∧
    (isExcluded sampleEnvFail.cfg.excludeProjects
      (sampleSession "s" "/secret/proj").projectPath = true) ∧
    (Filter.Apply sampleEnvFail.cfg (sampleSession "s" "/secret/proj") = none ∧
      (lookupA (syncSessions sampleEnvFail [] ["s.jsonl", "a.jsonl"]).sessions
        (sampleSession "s" "/secret/proj").id).isSome = true ∧
      ∀ b ∈ (syncSessions sampleEnvFail [] ["s.jsonl", "a.jsonl"]).calls, ∀ u ∈ b,
        ∃ g, g ∈ candidateFiles [] ["s.jsonl", "a.jsonl"] ∧
          ∃ orig, sampleEnvFail.parse g = some orig ∧
            isExcluded sampleEnvFail.cfg.excludeProjects orig.projectPath = false ∧
            Filter.Apply sampleEnvFail.cfg orig = some u) :=
  ⟨by decide, by decide, by decide,
    excluded_suppressed_but_recorded sampleEnvFail [] ["s.jsonl", "a.jsonl"]
      "s.jsonl" (sampleSession "s" "/secret/proj")
      (by decide) (by decide) (by decide)⟩
